import Mathlib

/-!
Verification of the vacancy-search utility (HeadHunter console client).

The development shallowly embeds the Python sources:
  * `src/vacancies.py`   — the `Vacancy` entity (URL validation, salary
    normalisation, numeric salary extraction, serialisation);
  * `src/work_files.py`  — the `JSONSaver` repository (load/save to a JSON
    file, add with URL dedup, delete, salary-range filter, top-N by salary);
  * `src/api_hh.py`      — the paginated search client `get_requests`;
  * `src/area.py`        — the recursive area-tree search `find_area_id`.

Python strings are Lean `String`s, Python `float` is modelled by `ℚ`
(the program only ever manipulates decimal literals, so this is exact),
fallible Python code returns `Except PyErr`, and the backing file is a
`FileState` holding the raw text content.  Library calls (`re.findall`,
`float(...)`, `urllib.parse.urlparse`, `json.dump`/`json.load`,
`str.strip`/`str.lower`) are given executable models of the fragment the
program exercises; each model documents the fragment it covers.
All recursion is structural (fuel-based where the source loops), so every
definition evaluates inside the kernel.
-/

namespace VacApp

/-- Python exception classes that the modelled code can raise. -/
inductive PyErr where
  | valueError (msg : String)
  | attributeError
  | typeError
  | keyError (key : String)
  | jsonDecodeError
deriving DecidableEq, Repr

/-! ## Models of Python string primitives -/

/-- Characters removed by Python `str.strip()` (ASCII whitespace; the exotic
Unicode whitespace stripped by CPython is outside the program's repertoire). -/
def py_ws (c : Char) : Bool :=
  c = ' ' || c = '\t' || c = '\n' || c = '\x0d' || c = '\x0b' || c = '\x0c'

/-- Python `str.strip()`: drop leading and trailing whitespace. -/
def py_strip_chars (cs : List Char) : List Char :=
  ((cs.dropWhile py_ws).reverse.dropWhile py_ws).reverse

/-- Python `str.strip()` on `String`. -/
def py_strip (s : String) : String :=
  ⟨py_strip_chars s.data⟩

/-- Python `str.lower()` on one character, for the repertoire the program
uses: ASCII letters and the Cyrillic block (А-Я, Ё). -/
def py_lower_char (c : Char) : Char :=
  if 'A' ≤ c ∧ c ≤ 'Z' then Char.ofNat (c.toNat + 32)
  else if '\u0410' ≤ c ∧ c ≤ '\u042F' then Char.ofNat (c.toNat + 32)
  else if c = '\u0401' then '\u0451'
  else c

/-- Python `str.lower()`. -/
def py_lower (s : String) : String :=
  ⟨s.data.map py_lower_char⟩

/-- Whether `pre` is a prefix of `cs` (character lists). -/
def starts_with : List Char → List Char → Bool
  | [], _ => true
  | _ :: _, [] => false
  | p :: ps, c :: cs => p = c && starts_with ps cs

/-- Python `needle in hay` substring containment on character lists. -/
def contains_sub_chars (needle : List Char) : List Char → Bool
  | [] => starts_with needle []
  | c :: cs => starts_with needle (c :: cs) || contains_sub_chars needle cs

/-- Python `needle in hay` substring containment on strings. -/
def contains_sub (needle hay : String) : Bool :=
  contains_sub_chars needle.data hay.data

/-- Python `hay.replace(old, "")` for a single-character `old`:
remove every occurrence of that character. -/
def remove_char (old : Char) (s : String) : String :=
  ⟨s.data.filter (fun c => c ≠ old)⟩

/-! ## The `Vacancy` entity (`src/vacancies.py`) -/

/-- One vacancy, mirroring the private attributes of class `Vacancy`. -/
structure Vacancy where
  title : String
  url : String
  salary : String
  description : String
  employer : String
  published_at : String
deriving DecidableEq, Repr

/-- The sentinel display string for an absent salary («Зарплата не указана!»). -/
def salary_sentinel : String := "Зарплата не указана!"

/-- `Vacancy._process_salary`: strip the salary text, substituting the
sentinel for an empty result.  (The `salary is None` branch coincides with
the empty case once `None` is out of the `String` model.) -/
def process_salary (salary : String) : String :=
  if py_strip salary = "" then salary_sentinel else py_strip salary

/-- Characters admissible after the first one in a URL scheme
(`urllib.parse.scheme_chars`). -/
def scheme_char (c : Char) : Bool :=
  c.isAlpha && c.toNat < 128 || c.isDigit || c = '+' || c = '-' || c = '.'

/-- Split off the scheme as `urllib.parse.urlsplit` does: a leading ASCII
letter followed by letters/digits/`+`/`-`/`.` up to the first `:`.
Returns (scheme, rest-after-colon); no colon or bad chars give scheme `""`. -/
def split_scheme (cs : List Char) : List Char × List Char :=
  match cs.findIdx? (fun c => c = ':') with
  | none => ([], cs)
  | some i =>
    let front := cs.take i
    match front with
    | [] => ([], cs)
    | c0 :: restChars =>
      if c0.isAlpha && c0.toNat < 128 && restChars.all scheme_char then
        ((cs.take i).map py_lower_char, cs.drop (i + 1))
      else ([], cs)

/-- Extract the netloc as `urlsplit` does: present only when the remainder
after the scheme starts with `//`, and running up to the first `/`, `?`
or `#`. -/
def split_netloc (cs : List Char) : List Char :=
  match cs with
  | '/' :: '/' :: rest => rest.takeWhile (fun c => c ≠ '/' ∧ c ≠ '?' ∧ c ≠ '#')
  | _ => []

/-- `urlsplit` raises `ValueError` («Invalid IPv6 URL») when the netloc
contains one kind of square bracket without the other.  (The deeper
bracketed-host validation of newer CPython is outside the modelled
fragment; the claims below that concern brackets carry an explicit
no-brackets hypothesis.) -/
def netloc_bracket_error (netloc : List Char) : Bool :=
  (netloc.contains '[' && !netloc.contains ']') ||
  (netloc.contains ']' && !netloc.contains '[')

/-- The URL characters `urlsplit` actually parses: tabs, carriage returns
and newlines removed first (WHATWG handling in CPython). -/
def url_filtered (url : String) : List Char :=
  url.data.filter (fun c => c ≠ '\t' ∧ c ≠ '\x0d' ∧ c ≠ '\n')

/-- `urlparse(url).scheme`. -/
def url_scheme (url : String) : List Char :=
  (split_scheme (url_filtered url)).1

/-- `urlparse(url).netloc`. -/
def url_netloc (url : String) : List Char :=
  split_netloc (split_scheme (url_filtered url)).2

/-- `Vacancy._is_valid_url`: parse with `urlparse` and require a truthy
scheme and netloc; any `ValueError` from parsing yields `false`. -/
def is_valid_url (url : String) : Bool :=
  if netloc_bracket_error (url_netloc url) then false
  else !(url_scheme url).isEmpty && !(url_netloc url).isEmpty

/-- Default employer sentinel («Работодатель не указан»). -/
def employer_sentinel : String := "Работодатель не указан"

/-- Default description sentinel («Описание не указано»). -/
def description_sentinel : String := "Описание не указано"

/-- `Vacancy.__init__`: validate the URL, then normalise every field
exactly as the constructor does. -/
def vacancy_make (title url salary description employer published_at : String) :
    Except PyErr Vacancy :=
  if py_strip url = "" then
    .error (.valueError "URL вакансии обязателен")
  else if !is_valid_url (py_strip url) then
    .error (.valueError ("Некорректный URL: " ++ url))
  else
    .ok { title := py_strip title
          url := py_strip url
          salary := process_salary salary
          description :=
            if py_strip description = "" then description_sentinel
            else py_strip description
          employer :=
            if py_strip employer = "" then employer_sentinel
            else py_strip employer
          published_at := py_strip published_at }

/-! ## The salary-number regex (`re.findall(r"\b\d{1,3}(?:\s?\d{3})*\b", ...)`)

A direct executable model of the Python regex engine on this one pattern:
backtracking, leftmost non-overlapping matches.  `\d` is modelled as the
ASCII digits, `\s` as the whitespace characters occurring in salary texts
(ASCII whitespace plus NBSP), and `\b` word characters as ASCII
alphanumerics, `_`, and the Cyrillic block — the repertoire of the
program's salary strings. -/

/-- Word character for `\b` in a Python `str` pattern (modelled repertoire:
ASCII alphanumerics, underscore, Cyrillic letters). -/
def word_char (c : Char) : Bool :=
  c.isAlphanum || c = '_' ||
  ('\u0400' ≤ c ∧ c ≤ '\u04FF')

/-- `\s` for the modelled repertoire (ASCII whitespace and U+00A0). -/
def re_space (c : Char) : Bool :=
  py_ws c || c = '\u00A0'

/-- Word boundary between an optional previous character and a next one. -/
def at_boundary (prev : Option Char) (next : Option Char) : Bool :=
  (match prev with | none => false | some c => word_char c) ≠
  (match next with | none => false | some c => word_char c)

/-- Greedy `(?:\s?\d{3})*` followed by the closing `\b`, starting after
`consumed` matched characters; returns the total matched length.
Backtracking: prefer one more repetition, else close with the boundary test
(the previous character is always a digit here, hence a word character). -/
def star_then_boundary (consumed : Nat) : List Char → Option Nat
  | [] => some consumed
  | c :: rest =>
    if re_space c then
      match rest with
      | c1 :: c2 :: c3 :: rest' =>
        if c1.isDigit && c2.isDigit && c3.isDigit then
          match star_then_boundary (consumed + 4) rest' with
          | some n => some n
          | none => if word_char c then none else some consumed
        else if word_char c then none else some consumed
      | _ => if word_char c then none else some consumed
    else
      match c :: rest with
      | c1 :: c2 :: c3 :: rest' =>
        if c1.isDigit && c2.isDigit && c3.isDigit then
          match star_then_boundary (consumed + 3) rest' with
          | some n => some n
          | none => if word_char c then none else some consumed
        else if word_char c then none else some consumed
      | _ => if word_char c then none else some consumed

/-- Try `\d{1,3}` of exactly `k` digits at the head, then the starred tail. -/
def try_digits (k : Nat) (cs : List Char) : Option Nat :=
  if (cs.take k).length = k && (cs.take k).all Char.isDigit then
    star_then_boundary k (cs.drop k)
  else none

/-- Match the whole pattern at the current position (the initial `\b` has
already been checked by the scanner); greedy `\d{1,3}` tries 3, 2, 1. -/
def try_match (cs : List Char) : Option Nat :=
  match try_digits 3 cs with
  | some n => some n
  | none =>
    match try_digits 2 cs with
    | some n => some n
    | none => try_digits 1 cs

/-- Scanner of `re.findall`: at each position, if a word boundary precedes a
digit, attempt a match; on success emit the matched text and resume right
after it, otherwise advance one character.  `fuel` bounds the number of
scanned positions (a successful match always consumes at least one
character, so `cs.length + 1` suffices). -/
def findall_scan (fuel : Nat) (prev : Option Char) (cs : List Char) :
    List (List Char) :=
  match fuel, cs with
  | 0, _ => []
  | _, [] => []
  | fuel + 1, c :: rest =>
    if at_boundary prev (some c) && c.isDigit then
      match try_match (c :: rest) with
      | some n =>
        ((c :: rest).take n) ::
          findall_scan fuel ((c :: rest).take n).getLast? ((c :: rest).drop n)
      | none => findall_scan fuel (some c) rest
    else findall_scan fuel (some c) rest

/-- `re.findall(r"\b\d{1,3}(?:\s?\d{3})*\b", s)`. -/
def findall_salary (s : String) : List String :=
  (findall_scan (s.data.length + 1) none s.data).map (fun cs => ⟨cs⟩)

/-- Value of a decimal-digit list. -/
def digits_val : List Char → Nat → Nat
  | [], acc => acc
  | c :: cs, acc => digits_val cs (acc * 10 + (c.toNat - '0'.toNat))

/-- `float(cleaned)` inside `get_salary_value`: the matched token with ASCII
spaces removed parses iff only digits remain (a remaining `\xa0` or tab
raises `ValueError` and the token is skipped). -/
def clean_number (tok : String) : Option ℚ :=
  let cleaned := (tok.data.filter (fun c => c ≠ ' '))
  if cleaned.all Char.isDigit && !cleaned.isEmpty then
    some (digits_val cleaned 0 : ℚ)
  else none

/-- The numeric values extracted from a salary string: narrow no-break
spaces removed, regex matches collected, each cleaned and parsed. -/
def salary_values (salary : String) : List ℚ :=
  (findall_salary (remove_char '\u202F' salary)).filterMap clean_number

/-- `Vacancy.get_salary_value`: `0.0` when the salary *contains* the
sentinel, else the mean of all extracted numbers (two or more), the single
number, or `0.0`. -/
def get_salary_value (salary : String) : ℚ :=
  if contains_sub salary_sentinel salary then 0
  else
    let values := salary_values salary
    if values.length ≥ 2 then values.sum / values.length
    else
      match values with
      | [v] => v
      | _ => 0

/-! ## Python `float()` and list sorting/slicing primitives -/

/-- Leading decimal digits of a character list, and the rest. -/
def span_digits (cs : List Char) : List Char × List Char :=
  (cs.takeWhile Char.isDigit, cs.dropWhile Char.isDigit)

/-- Optional exponent part of a Python float literal (after the mantissa):
either nothing remains, or `e`/`E`, an optional sign and at least one
digit, consuming the whole rest. -/
def py_float_exp (m : ℚ) (cs : List Char) : Option ℚ :=
  match cs with
  | [] => some m
  | e :: r =>
    if e = 'e' ∨ e = 'E' then
      let (sgn, r') : Bool × List Char :=
        match r with
        | '+' :: r' => (false, r')
        | '-' :: r' => (true, r')
        | _ => (false, r)
      let (ds, rest) := span_digits r'
      if ds.isEmpty ∨ !rest.isEmpty then none
      else
        let ex : ℤ := if sgn then -(digits_val ds 0 : ℤ) else (digits_val ds 0 : ℤ)
        some (m * (10 : ℚ) ^ ex)
    else none

/-- Mantissa of a Python float literal: `digits`, `digits.`, `digits.digits`
or `.digits`, followed by the optional exponent. -/
def py_float_tail (cs : List Char) : Option ℚ :=
  let (ip, r1) := span_digits cs
  match r1 with
  | '.' :: r2 =>
    let (fp, r3) := span_digits r2
    if ip.isEmpty ∧ fp.isEmpty then none
    else py_float_exp ((digits_val ip 0 : ℚ) + (digits_val fp 0 : ℚ) / (10 : ℚ) ^ fp.length) r3
  | _ => if ip.isEmpty then none else py_float_exp (digits_val ip 0 : ℚ) r1

/-- Python `float(s)`: strip whitespace, optional sign, decimal literal with
optional fraction and exponent.  (Digit-group underscores, `inf`/`nan` and
hexadecimal forms are outside the modelled fragment — salary texts never
contain them.)  `None` models the raised `ValueError`. -/
def py_float (s : String) : Option ℚ :=
  match (py_strip s).data with
  | '+' :: cs => py_float_tail cs
  | '-' :: cs => (py_float_tail cs).map Neg.neg
  | cs => py_float_tail cs

/-- Code-point lexicographic `≤` on character lists (Python `str` order). -/
def chars_le : List Char → List Char → Bool
  | [], _ => true
  | _ :: _, [] => false
  | a :: as, b :: bs => if a = b then chars_le as bs else a.toNat < b.toNat

/-- Python string comparison `a <= b`. -/
def py_str_le (a b : String) : Bool :=
  chars_le a.data b.data

/-- Stable insertion used to model Python's stable `sorted(..., reverse=True)`
on the salary display string: a new element goes after every element whose
key is `≥` its own. -/
def top_insert (x : Vacancy) : List Vacancy → List Vacancy
  | [] => [x]
  | y :: ys => if py_str_le x.salary y.salary then y :: top_insert x ys else x :: y :: ys

/-- `sorted(vacancies, key=lambda x: x.salary(), reverse=True)`: descending
by the salary *string*, ties keeping the prior relative order.  (Any stable
sort agrees with CPython's Timsort on a total preorder key.) -/
def py_sorted_desc_salary (vs : List Vacancy) : List Vacancy :=
  vs.foldl (fun acc v => top_insert v acc) []

/-- Python slice `l[:n]` for an `int` bound: nonnegative `n` keeps the first
`n` elements, negative `n` drops the last `-n`. -/
def py_slice_to (n : ℤ) (l : List α) : List α :=
  if 0 ≤ n then l.take n.toNat else l.take (l.length - (-n).toNat)

/-! ## JSON documents and the text layer (`json.dump` / `json.load`)

`Json` is the value universe for decoded documents and for API responses.
The parser covers the fragment the program's files can contain (strings
with escapes, arrays, objects, integers, literals); `json.dump` is modelled
for the one shape `_save_data` ever writes — a list of `to_dict`
dictionaries — producing the same document text up to the `indent=4`
whitespace, which the parser skips anyway. -/

inductive Json where
  | null
  | bool (b : Bool)
  | num (n : ℤ)
  | str (s : String)
  | arr (elems : List Json)
  | obj (fields : List (String × Json))

/-- First value stored under `key` (Python dicts have unique keys, so the
first match is the dict lookup). -/
def dict_get : List (String × Json) → String → Option Json
  | [], _ => none
  | (k, v) :: rest, key => if k = key then some v else dict_get rest key

/-- Lower-case hexadecimal digit, as `json.dump` emits in `\u00xx`. -/
def hex_digit (n : Nat) : Char :=
  if n < 10 then Char.ofNat ('0'.toNat + n) else Char.ofNat ('a'.toNat + (n - 10))

/-- `json.dump(..., ensure_ascii=False)` escaping of one character. -/
def escape_char (c : Char) : List Char :=
  if c = '"' then ['\\', '"']
  else if c = '\\' then ['\\', '\\']
  else if c = '\n' then ['\\', 'n']
  else if c = '\t' then ['\\', 't']
  else if c = '\x0d' then ['\\', 'r']
  else if c = '\x08' then ['\\', 'b']
  else if c = '\x0c' then ['\\', 'f']
  else if c.toNat < 32 then
    ['\\', 'u', '0', '0', hex_digit (c.toNat / 16), hex_digit (c.toNat % 16)]
  else [c]

/-- Escape a whole character list. -/
def escape_chars : List Char → List Char
  | [] => []
  | c :: cs => escape_char c ++ escape_chars cs

/-- A JSON string token. -/
def dump_string (s : String) : List Char :=
  '"' :: escape_chars s.data ++ ['"']

/-- `Vacancy.to_dict`, in the dictionary's insertion order. -/
def to_dict (v : Vacancy) : List (String × String) :=
  [("title", v.title), ("url", v.url), ("salary", v.salary),
   ("description", v.description), ("employer", v.employer),
   ("published_at", v.published_at)]

/-- One serialised key/value pair. -/
def dump_field (k v : String) : List Char :=
  dump_string k ++ ':' :: dump_string v

/-- Comma-separated serialised key/value pairs of one object. -/
def dump_fields : List (String × String) → List Char
  | [] => []
  | [(k, v)] => dump_field k v
  | (k, v) :: rest => dump_field k v ++ ',' :: dump_fields rest

/-- One serialised `to_dict` object. -/
def dump_vac (v : Vacancy) : List Char :=
  '{' :: dump_fields (to_dict v) ++ ['}']

/-- Comma-separated serialised objects. -/
def dump_items : List Vacancy → List Char
  | [] => []
  | [v] => dump_vac v
  | v :: rest => dump_vac v ++ ',' :: dump_items rest

/-- `json.dump([v.to_dict() for v in vacancies], file, ensure_ascii=False,
indent=4)`: the document text `_save_data` writes (modulo the indentation
whitespace, which carries no information). -/
def save_content (vs : List Vacancy) : String :=
  ⟨'[' :: dump_items vs ++ [']']⟩

/-- JSON insignificant whitespace. -/
def json_ws (c : Char) : Bool :=
  c = ' ' || c = '\t' || c = '\n' || c = '\x0d'

/-- Skip insignificant whitespace. -/
def skip_ws (cs : List Char) : List Char :=
  cs.dropWhile json_ws

/-- Value of one hexadecimal digit. -/
def parse_hex (c : Char) : Option Nat :=
  if '0' ≤ c ∧ c ≤ '9' then some (c.toNat - '0'.toNat)
  else if 'a' ≤ c ∧ c ≤ 'f' then some (c.toNat - 'a'.toNat + 10)
  else if 'A' ≤ c ∧ c ≤ 'F' then some (c.toNat - 'A'.toNat + 10)
  else none

/-- Short escape sequences accepted after a backslash. -/
def unescape_short (c : Char) : Option Char :=
  if c = '"' then some '"'
  else if c = '\\' then some '\\'
  else if c = '/' then some '/'
  else if c = 'n' then some '\n'
  else if c = 't' then some '\t'
  else if c = 'r' then some '\x0d'
  else if c = 'b' then some '\x08'
  else if c = 'f' then some '\x0c'
  else none

/-- Parse a JSON string body after the opening quote; returns the decoded
characters and the rest after the closing quote.  (Surrogate-pair `\u`
sequences are outside the modelled fragment.) -/
def parse_string_body : List Char → Option (List Char × List Char)
  | [] => none
  | '"' :: rest => some ([], rest)
  | '\\' :: 'u' :: h1 :: h2 :: h3 :: h4 :: rest2 =>
    (match parse_hex h1, parse_hex h2, parse_hex h3, parse_hex h4 with
     | some v1, some v2, some v3, some v4 =>
       (parse_string_body rest2).map
         (fun p => (Char.ofNat (((v1 * 16 + v2) * 16 + v3) * 16 + v4) :: p.1, p.2))
     | _, _, _, _ => none)
  | '\\' :: e :: rest2 =>
    (match unescape_short e with
     | some c' => (parse_string_body rest2).map (fun p => (c' :: p.1, p.2))
     | none => none)
  | c :: rest => (parse_string_body rest).map (fun p => (c :: p.1, p.2))

mutual

/-- Parse one JSON value; `fuel` bounds the recursion (at the top it is set
above the input length, which any document's nesting cannot exceed). -/
def parse_value : Nat → List Char → Option (Json × List Char)
  | 0, _ => none
  | fuel + 1, cs =>
    match cs with
    | [] => none
    | c :: rest =>
      if c = '"' then (parse_string_body rest).map (fun p => (.str ⟨p.1⟩, p.2))
      else if c = '[' then
        (match skip_ws rest with
         | [] => none
         | c2 :: r2 =>
           if c2 = ']' then some (.arr [], r2)
           else (parse_elems fuel (c2 :: r2)).map (fun p => (.arr p.1, p.2)))
      else if c = '{' then
        (match skip_ws rest with
         | [] => none
         | c2 :: r2 =>
           if c2 = '}' then some (.obj [], r2)
           else (parse_fields fuel (c2 :: r2)).map (fun p => (.obj p.1, p.2)))
      else if c = 'n' then
        (match rest with
         | 'u' :: 'l' :: 'l' :: r => some (.null, r)
         | _ => none)
      else if c = 't' then
        (match rest with
         | 'r' :: 'u' :: 'e' :: r => some (.bool true, r)
         | _ => none)
      else if c = 'f' then
        (match rest with
         | 'a' :: 'l' :: 's' :: 'e' :: r => some (.bool false, r)
         | _ => none)
      else if c = '-' then
        (match span_digits rest with
         | ([], _) => none
         | (ds, r) => some (.num (-(digits_val ds 0 : ℤ)), r))
      else if c.isDigit then
        some (.num (digits_val (span_digits (c :: rest)).1 0 : ℤ),
          (span_digits (c :: rest)).2)
      else none

/-- Parse the elements of a non-empty array (after the opening bracket and
leading whitespace). -/
def parse_elems : Nat → List Char → Option (List Json × List Char)
  | 0, _ => none
  | fuel + 1, cs =>
    match parse_value fuel cs with
    | none => none
    | some (v, r) =>
      match skip_ws r with
      | [] => none
      | c2 :: r2 =>
        if c2 = ',' then (parse_elems fuel (skip_ws r2)).map (fun p => (v :: p.1, p.2))
        else if c2 = ']' then some ([v], r2)
        else none

/-- Parse the fields of a non-empty object (after the opening brace and
leading whitespace). -/
def parse_fields : Nat → List Char → Option (List (String × Json) × List Char)
  | 0, _ => none
  | fuel + 1, cs =>
    match cs with
    | [] => none
    | c :: rest =>
      if c = '"' then
        (match parse_string_body rest with
         | none => none
         | some (k, r) =>
           match skip_ws r with
           | [] => none
           | c2 :: r2 =>
             if c2 = ':' then
               (match parse_value fuel (skip_ws r2) with
                | none => none
                | some (v, r3) =>
                  match skip_ws r3 with
                  | [] => none
                  | c3 :: r4 =>
                    if c3 = ',' then
                      (parse_fields fuel (skip_ws r4)).map
                        (fun p => ((⟨k⟩, v) :: p.1, p.2))
                    else if c3 = '}' then some ([(⟨k⟩, v)], r4)
                    else none)
             else none)
      else none

end

/-- `json.load`: parse the whole text (no trailing garbage). -/
def json_parse (s : String) : Option Json :=
  match parse_value (s.data.length + 1) (skip_ws s.data) with
  | some (v, rest) => if (skip_ws rest).isEmpty then some v else none
  | none => none

/-! ## The `JSONSaver` repository (`src/work_files.py`) -/

/-- The backing file: absent, or present with raw text content. -/
inductive FileState where
  | absent
  | present (content : String)
deriving DecidableEq

/-- A `JSONSaver` instance: the in-memory collection plus its file. -/
structure Saver where
  vacancies : List Vacancy
  file : FileState
deriving DecidableEq

/-- Reconstruct one stored record: `Vacancy(title=item["title"], ...)` in
`_load_data`.  A non-dict item or a non-string field value makes the Python
comprehension raise (`TypeError`/`AttributeError`); a missing required key
raises `KeyError`; `description` defaults to `""` via `.get`. -/
def decode_vac_item (j : Json) : Except PyErr Vacancy :=
  match j with
  | .obj fields =>
    match dict_get fields "title" with
    | none => .error (.keyError "title")
    | some jt =>
      match dict_get fields "url" with
      | none => .error (.keyError "url")
      | some ju =>
        match dict_get fields "salary" with
        | none => .error (.keyError "salary")
        | some js =>
          match dict_get fields "employer" with
          | none => .error (.keyError "employer")
          | some je =>
            match dict_get fields "published_at" with
            | none => .error (.keyError "published_at")
            | some jp =>
              match jt, ju, js, (dict_get fields "description").getD (.str ""),
                    je, jp with
              | .str t, .str u, .str sal, .str d, .str e, .str p =>
                vacancy_make t u sal d e p
              | _, _, _, _, _, _ => .error .attributeError
  | _ => .error .typeError

/-- Decode every stored record, failing at the first bad one. -/
def decode_vac_list : List Json → Except PyErr (List Vacancy)
  | [] => .ok []
  | j :: rest =>
    match decode_vac_item j with
    | .error e => .error e
    | .ok v =>
      match decode_vac_list rest with
      | .error e => .error e
      | .ok vs => .ok (v :: vs)

/-- `JSONSaver._load_data`: an absent file gives the empty collection; a
present file is `json.load`ed (a parse failure propagates) and its items
are decoded.  Iterating a non-list document raises `TypeError` — except
that an empty dict or empty string iterates to nothing. -/
def load_data (file : FileState) : Except PyErr (List Vacancy) :=
  match file with
  | .absent => .ok []
  | .present s =>
    match json_parse s with
    | none => .error .jsonDecodeError
    | some (.arr items) => decode_vac_list items
    | some (.obj []) => .ok []
    | some (.str t) => if t.data.isEmpty then .ok [] else .error .typeError
    | some _ => .error .typeError

/-- `JSONSaver.__init__`: load the backing file into a fresh instance. -/
def init_saver (file : FileState) : Except PyErr Saver :=
  (load_data file).map (fun vs => { vacancies := vs, file := file })

/-- `JSONSaver._save_data`: rewrite the whole backing file. -/
def save_data (s : Saver) : Saver :=
  { s with file := .present (save_content s.vacancies) }

/-- `JSONSaver._is_duplicate`: some stored record has this URL. -/
def is_duplicate (s : Saver) (url : String) : Bool :=
  s.vacancies.any (fun v => v.url = url)

/-- `JSONSaver._add_vacancy`: reject duplicates by URL without touching
anything; otherwise append and rewrite the file, returning `True`. -/
def add_vacancy (s : Saver) (v : Vacancy) : Bool × Saver :=
  if is_duplicate s v.url then (false, s)
  else (true, save_data { s with vacancies := s.vacancies ++ [v] })

/-- Remove the first record with the given URL, if any. -/
def remove_first_url (url : String) : List Vacancy → Option (List Vacancy)
  | [] => none
  | v :: rest =>
    if v.url = url then some rest
    else (remove_first_url url rest).map (fun l => v :: l)

/-- `JSONSaver.delete_vacancy`: with an affirmative `all_del` flag, truncate
the file (`open(..., "w")` writes nothing — zero-length content) and clear
the collection; otherwise delete the first record matching the URL and
rewrite the file, reporting whether one was found. -/
def delete_vacancy (s : Saver) (vac : Vacancy) (all_del : String) : Bool × Saver :=
  if py_lower all_del = "y" ∨ py_lower all_del = "да" ∨ py_lower all_del = "yes" then
    (true, { vacancies := [], file := .present "" })
  else
    match remove_first_url vac.url s.vacancies with
    | some l => (true, save_data { s with vacancies := l })
    | none => (false, s)

/-- `JSONSaver.get_top_by_salary`: sort descending by the salary *string*
(`key=lambda x: x.salary()`), then slice the first `n`. -/
def get_top_by_salary (s : Saver) (n : ℤ) : List Vacancy :=
  py_slice_to n (py_sorted_desc_salary s.vacancies)

/-- The local `parse_salary` helper of `filter_by_salary_range`: remove
ASCII spaces, narrow no-break spaces and commas, then `float(...)`;
`None` on failure. -/
def parse_salary (salary_str : String) : Option ℚ :=
  py_float (remove_char ',' (remove_char '\u202F' (remove_char ' ' salary_str)))

/-- `JSONSaver.filter_by_salary_range`: keep the records whose *whole*
cleaned salary string parses as a float within `[min_salary, max_salary]`. -/
def filter_by_salary_range (s : Saver) (min_salary max_salary : ℚ) : List Vacancy :=
  s.vacancies.filter (fun v =>
    match parse_salary v.salary with
    | some sal => decide (min_salary ≤ sal ∧ sal ≤ max_salary)
    | none => false)

/-- A record in the constructor's image: re-running `Vacancy.__init__` on its
own fields reproduces it exactly.  Every record the program ever holds has
this property (construction, API factory, file reload all go through the
constructor). -/
def canonical (v : Vacancy) : Prop :=
  vacancy_make v.title v.url v.salary v.description v.employer v.published_at = .ok v

/-! ## Python `str()` of a decoded JSON value (for `str(area.get("id", "0"))`) -/

/-- Python `repr` of a string — the fragment without quote-preference
subtleties: single quotes, escaping backslash, the quote itself and the
common control characters (`\x7b`/`\x7d` denote literal braces). -/
def py_repr_str_char (c : Char) : List Char :=
  if c = '\\' then ['\\', '\\']
  else if c = '\'' then ['\\', '\'']
  else if c = '\n' then ['\\', 'n']
  else if c = '\t' then ['\\', 't']
  else if c = '\x0d' then ['\\', 'r']
  else if c.toNat < 32 then
    ['\\', 'x', hex_digit (c.toNat / 16), hex_digit (c.toNat % 16)]
  else [c]

/-- Apply a character escaper across a list. -/
def escape_by (f : Char → List Char) : List Char → List Char
  | [] => []
  | c :: cs => f c ++ escape_by f cs

/-- Python `repr` of a string (modelled fragment). -/
def py_repr_str (s : String) : String :=
  ⟨'\'' :: (escape_by py_repr_str_char s.data) ++ ['\'']⟩

mutual

/-- Python `repr` of a decoded JSON value (containers render their elements
with `repr`, separated by a comma and a space). -/
def py_repr_json : Json → String
  | .null => "None"
  | .bool true => "True"
  | .bool false => "False"
  | .num n => toString n
  | .str s => py_repr_str s
  | .arr l => "[" ++ py_repr_list l ++ "]"
  | .obj fl => "\x7b" ++ py_repr_fields fl ++ "\x7d"

/-- Comma-separated element `repr`s. -/
def py_repr_list : List Json → String
  | [] => ""
  | [j] => py_repr_json j
  | j :: rest => py_repr_json j ++ ", " ++ py_repr_list rest

/-- Comma-separated `key: value` `repr`s. -/
def py_repr_fields : List (String × Json) → String
  | [] => ""
  | [(k, v)] => py_repr_str k ++ ": " ++ py_repr_json v
  | (k, v) :: rest => py_repr_str k ++ ": " ++ py_repr_json v ++ ", " ++ py_repr_fields rest

end

/-- Python `str()` of a decoded JSON value: strings unquoted, scalars by
their Python spelling, containers as their `repr`. -/
def py_str_of (j : Json) : String :=
  match j with
  | .str s => s
  | other => py_repr_json other

/-! ## The paginated search client (`HeadHunterAPI.get_requests`)

The remote endpoint is a `provider` function from the page number to the
outcome of `_request` for that page: `none` for every transport-level
failure (network error, non-200 status, undecodable or non-dict body — all
of which `_request` turns into `None`), or the decoded JSON dictionary. -/

/-- `HeadHunterAPI._parse_items`: the `items` member if it is a list of
dicts, else `[]` (also when absent, via the `.get` default). -/
def parse_items (d : List (String × Json)) : List Json :=
  match dict_get d "items" with
  | some (.arr l) =>
    if l.all (fun j => match j with | .obj _ => true | _ => false) then l else []
  | some _ => []
  | none => []

/-- The `while True` pagination loop of `get_requests`.  One fuel unit per
iteration: every continuing iteration appends at least one item and
continues only while the accumulator is shorter than `per_page`, so
`per_page.toNat + 1` units can never run out.  A non-numeric `pages` member
makes `page >= total_pages - 1` raise `TypeError` (a Python `bool` counts
as the number 0 or 1). -/
def get_requests_loop (provider : Nat → Option (List (String × Json)))
    (per_page : ℤ) : Nat → List Json → Nat → Except PyErr (List Json)
  | _, acc, 0 => .ok acc
  | page, acc, fuel + 1 =>
    match provider page with
    | none => .ok acc
    | some d =>
      if d.isEmpty then .ok acc
      else
        let items := parse_items d
        if items.isEmpty then .ok acc
        else
          let acc' := acc ++ items
          match (dict_get d "pages").getD (.num 0) with
          | .num total_pages =>
            if (page : ℤ) ≥ total_pages - 1 ∨ (acc'.length : ℤ) ≥ per_page then .ok acc'
            else get_requests_loop provider per_page (page + 1) acc' fuel
          | .bool b =>
            if (page : ℤ) ≥ (if b then 1 else 0) - 1 ∨ (acc'.length : ℤ) ≥ per_page then .ok acc'
            else get_requests_loop provider per_page (page + 1) acc' fuel
          | _ => .error .typeError

/-- `HeadHunterAPI.get_requests`: run the loop from page 0 and return
`all_vacancies[:per_page]`. -/
def get_requests (provider : Nat → Option (List (String × Json)))
    (per_page : ℤ) : Except PyErr (List Json) :=
  (get_requests_loop provider per_page 0 [] (per_page.toNat + 1)).map
    (py_slice_to per_page)

/-- The `pages` count a response reports (`data.get("pages", 0)`), as the
number Python arithmetic sees. -/
def spec_pages (d : List (String × Json)) : ℤ :=
  match dict_get d "pages" with
  | some (.num n) => n
  | some (.bool b) => if b then 1 else 0
  | _ => 0

/-- Every page the provider ever returns carries a numeric (or absent)
`pages` member — the well-typedness that keeps the Python comparison from
raising. -/
def pages_well_typed (provider : Nat → Option (List (String × Json))) : Prop :=
  ∀ p d j, provider p = some d → dict_get d "pages" = some j →
    (∃ n, j = Json.num n) ∨ (∃ b, j = Json.bool b)

/-- Modelled from the spec's wording of the pagination behaviour, for the
refinement theorem: request successive pages starting at 0; stop when the
request yields no data, or the page yields zero items, or the accumulated
count has reached `pageSize`, or the reported total-pages count is
exhausted. -/
def spec_search_loop (provider : Nat → Option (List (String × Json)))
    (pageSize : ℤ) : Nat → List Json → Nat → List Json
  | _, acc, 0 => acc
  | page, acc, fuel + 1 =>
    match provider page with
    | none => acc
    | some d =>
      if d.isEmpty then acc
      else
        let items := parse_items d
        if items.isEmpty then acc
        else if ((acc ++ items).length : ℤ) ≥ pageSize then acc ++ items
        else if (page : ℤ) ≥ spec_pages d - 1 then acc ++ items
        else spec_search_loop provider pageSize (page + 1) (acc ++ items) fuel

/-- The spec-level search: at most `pageSize` records, overshoot of the
last page truncated. -/
def spec_search (provider : Nat → Option (List (String × Json)))
    (pageSize : ℤ) : List Json :=
  py_slice_to pageSize (spec_search_loop provider pageSize 0 [] (pageSize.toNat + 1))

/-! ## The area-tree search (`AreaAPI.find_area_id`)

Mutual structural recursion over the decoded tree; the descent into
`area["areas"]` scans the field list, so that the nested value stays a
structural subterm (a dict's lookup is its first matching entry). -/

mutual

/-- The `for area in areas` loop of `search_in_areas`: examine the head
node; a match or a non-`"0"` nested result short-circuits, otherwise the
loop continues with the siblings. -/
def search_list (t : String) : List Json → Except PyErr String
  | [] => .ok "0"
  | a :: rest =>
    match search_node t a with
    | .error e => .error e
    | .ok (some r) => .ok r
    | .ok none => search_list t rest

/-- One node: `area.get("name", "").strip().lower()` (raising
`AttributeError` on a non-dict node or a non-string name), the
case-insensitive comparison, and `str(area.get("id", "0"))` on a match. -/
def search_node (t : String) : Json → Except PyErr (Option String)
  | .obj fields =>
    match (dict_get fields "name").getD (.str "") with
    | .str s =>
      if py_lower (py_strip s) = t then
        .ok (some (py_str_of ((dict_get fields "id").getD (.str "0"))))
      else scan_areas t fields
    | _ => .error .attributeError
  | _ => .error .attributeError

/-- `if "areas" in area:` — look for the first `areas` entry and descend
into it; its `"0"` result means «keep looking with the siblings». -/
def scan_areas (t : String) : List (String × Json) → Except PyErr (Option String)
  | [] => .ok none
  | (k, v) :: rest =>
    if k = "areas" then
      match iter_areas t v with
      | .error e => .error e
      | .ok r => if r = "0" then .ok none else .ok (some r)
    else scan_areas t rest

/-- `search_in_areas(area["areas"])`: iterating a list recurses; iterating
an empty string or empty dict yields nothing (result `"0"`); any other
iterable's elements are not dicts (`AttributeError`), and non-iterables
raise `TypeError`. -/
def iter_areas (t : String) : Json → Except PyErr String
  | .arr l => search_list t l
  | .str s => if s.data.isEmpty then .ok "0" else .error .attributeError
  | .obj fl => if fl.isEmpty then .ok "0" else .error .attributeError
  | _ => .error .typeError

end

/-- `AreaAPI.find_area_id`: normalise the target, wrap a dict input in a
list, return `"0"` for any other non-list input, then run the search. -/
def find_area_id (data : Json) (target_name : String) : Except PyErr String :=
  let t := py_lower (py_strip target_name)
  match data with
  | .obj _ => search_list t [data]
  | .arr l => search_list t l
  | _ => .ok "0"

/-- Whether a node's trimmed, lower-cased name equals the (already
normalised) target. -/
def node_matches (t : String) (fields : List (String × Json)) : Bool :=
  match (dict_get fields "name").getD (.str "") with
  | .str s => py_lower (py_strip s) = t
  | _ => false

/-- What a matching node returns: `str(area.get("id", "0"))`. -/
def node_candidate (fields : List (String × Json)) : String :=
  py_str_of ((dict_get fields "id").getD (.str "0"))

mutual

/-- Pre-order flattening of the tree: current node before its children,
then the following siblings, in list order. -/
def preorder_fields : List Json → List (List (String × Json))
  | [] => []
  | j :: rest =>
    match j with
    | .obj fields => fields :: (preorder_children fields ++ preorder_fields rest)
    | _ => preorder_fields rest

/-- Children contributed by the first `areas` entry of a node. -/
def preorder_children : List (String × Json) → List (List (String × Json))
  | [] => []
  | (k, v) :: rest => if k = "areas" then preorder_sub v else preorder_children rest

/-- Children of an `areas` value: the elements when it is a list. -/
def preorder_sub : Json → List (List (String × Json))
  | .arr l => preorder_fields l
  | _ => []

end

/-- Modelled from the spec's wording of the area search, for the refinement
theorem: the id of the first node in pre-order whose trimmed name matches
case-insensitively, and `"0"` when none does. -/
def find_area_spec (data : Json) (target_name : String) : String :=
  let t := py_lower (py_strip target_name)
  let nodes :=
    match data with
    | .obj _ => preorder_fields [data]
    | .arr l => preorder_fields l
    | _ => []
  match nodes.find? (node_matches t) with
  | some fields => node_candidate fields
  | none => "0"

mutual

/-- Well-formed area nodes: every node is a dict whose `name` (if present)
is a string, whose `id` renders to something other than `"0"`, and whose
`areas` member (if present) is a list of well-formed nodes. -/
def wf_nodes : List Json → Bool
  | [] => true
  | j :: rest =>
    (match j with
     | .obj fields =>
       (match dict_get fields "name" with
        | none => true
        | some (.str _) => true
        | some _ => false) &&
       !(node_candidate fields = "0") &&
       wf_areas fields
     | _ => false) &&
    wf_nodes rest

/-- The first `areas` entry, if any, must hold a list of well-formed nodes. -/
def wf_areas : List (String × Json) → Bool
  | [] => true
  | (k, v) :: rest =>
    if k = "areas" then
      match v with
      | .arr l => wf_nodes l
      | _ => false
    else wf_areas rest

end

/-- Well-formedness of the whole search input. -/
def wf_tree (data : Json) : Bool :=
  match data with
  | .obj _ => wf_nodes [data]
  | .arr l => wf_nodes l
  | _ => true

/-! ## Auxiliary definitions for the statements and proofs -/

/-- The JSON document node for one stored record — what `json.load` returns
for the object `json.dump` wrote from `to_dict`. -/
def vac_json (v : Vacancy) : Json :=
  .obj [("title", .str v.title), ("url", .str v.url), ("salary", .str v.salary),
        ("description", .str v.description), ("employer", .str v.employer),
        ("published_at", .str v.published_at)]

mutual

/-- Size of a JSON value (for strong induction over trees). -/
def json_size : Json → Nat
  | .null => 1
  | .bool _ => 1
  | .num _ => 1
  | .str _ => 1
  | .arr l => 1 + json_size_list l
  | .obj fl => 1 + json_size_fields fl

/-- Total size of a list of JSON values. -/
def json_size_list : List Json → Nat
  | [] => 0
  | j :: rest => 1 + json_size j + json_size_list rest

/-- Total size of an object's field list. -/
def json_size_fields : List (String × Json) → Nat
  | [] => 0
  | (_, v) :: rest => 1 + json_size v + json_size_fields rest

end

/-- The id of the first matching node of a pre-order listing, or `"0"`. -/
def first_match (t : String) (nodes : List (List (String × Json))) : String :=
  match nodes.find? (node_matches t) with
  | some fields => node_candidate fields
  | none => "0"

/-- The host of a netloc, as `urllib` extracts it: the part after the last
`@`, up to the first `:`, lower-cased (bracketed hosts aside). -/
def url_host (netloc : List Char) : List Char :=
  (((netloc.reverse.takeWhile (fun c => c ≠ '@')).reverse).takeWhile
    (fun c => c ≠ ':')).map py_lower_char

/-- Fixture: a record whose salary string sorts high lexicographically but
is numerically the smaller one. -/
def vac_low : Vacancy :=
  { title := "A", url := "https://example.com/1", salary := "90000 руб."
    description := "Описание не указано", employer := "Работодатель не указан"
    published_at := "" }

/-- Fixture: a record with a salary range worth 175000 numerically whose
display string sorts low lexicographically. -/
def vac_high : Vacancy :=
  { title := "B", url := "https://example.com/2", salary := "150000-200000 RUR"
    description := "Описание не указано", employer := "Работодатель не указан"
    published_at := "" }

/-- Fixture: a record with the sentinel (unspecified) salary. -/
def vac_sent : Vacancy :=
  { title := "C", url := "https://example.com/3", salary := salary_sentinel
    description := "Описание не указано", employer := "Работодатель не указан"
    published_at := "" }

/-- Fixture: the raw item served by the mocked provider's page `p`. -/
def page_item (p : Nat) : Json :=
  .obj [("alternate_url", .str (toString p))]

/-- Fixture: a mocked provider returning two pages of one item each and
reporting `pages = 2`. -/
def two_page_provider (p : Nat) : Option (List (String × Json)) :=
  if p < 2 then some [("items", .arr [page_item p]), ("pages", .num 2)] else none

/-- Fixture: a small well-formed area tree. -/
def area_tree : Json :=
  .arr [.obj [("id", .str "2"), ("name", .str "Санкт-Петербург"),
              ("areas", .arr [.obj [("id", .str "78"),
                                    ("name", .str "Ленинградская область"),
                                    ("areas", .arr [])]])],
        .obj [("id", .str "1"), ("name", .str "Москва"), ("areas", .arr [])]]

/-! # Theorems -/

/-- **C1.** The claim says `get_top_by_salary(n)` sorts the collection in
descending order of the numeric salary value (`get_salary_value`).  The
code sorts by the salary *display string* (`key=lambda x: x.salary()`):
on a collection holding salaries «90000 руб.» (value 90000) and
«150000-200000 RUR» (value 175000), `get_top_by_salary 2` puts the
numerically smaller record first, because `"9" > "1"` as strings. -/
theorem c1_top_by_salary_uses_string_order :
    get_top_by_salary { vacancies := [vac_low, vac_high], file := .absent } 2 =
      [vac_low, vac_high] ∧
    get_salary_value vac_low.salary = 90000 ∧
    get_salary_value vac_high.salary = 175000 ∧
    ((90000 : ℚ) < 175000) := by
  refine ⟨by decide, ?_, ?_, by norm_num⟩
  · have hcon : contains_sub salary_sentinel vac_low.salary = false := rfl
    have h : salary_values vac_low.salary = [((90000 : ℕ) : ℚ)] := rfl
    simp only [get_salary_value, hcon, h]
    norm_num
  · have hcon : contains_sub salary_sentinel vac_high.salary = false := rfl
    have h : salary_values vac_high.salary =
        [((150000 : ℕ) : ℚ), ((200000 : ℕ) : ℚ)] := rfl
    simp only [get_salary_value, hcon, h]
    norm_num

/-- **C9.** On construction, an absent backing file yields the empty
collection, and a present file whose content does not parse as JSON makes
`_load_data` propagate the decode error to the caller (there is no
swallowing `except` around `json.load`). -/
theorem c9_absent_empty_and_corrupt_propagates :
    load_data .absent = .ok [] ∧
    ∀ s : String, json_parse s = none →
      load_data (.present s) = .error .jsonDecodeError := by
  refine ⟨rfl, fun s h => ?_⟩
  simp [load_data, h]

/-- Witness for C9 at the concrete corrupt content `"{"`. -/
theorem c9_witness :
    json_parse "\x7b" = none ∧
    load_data (.present "\x7b") = .error .jsonDecodeError :=
  ⟨rfl, c9_absent_empty_and_corrupt_propagates.2 "\x7b" rfl⟩

/-- **C10.** The delete-all branch of `delete_vacancy` (an affirmative
`"y"`/`"yes"`/`"да"` flag) truncates the backing file to zero-length
content — not the empty JSON array `"[]"` that `_save_data` would write —
so constructing a fresh repository from that file fails with a JSON decode
error instead of producing an empty collection. -/
theorem c10_delete_all_truncates_to_invalid_json
    (s : Saver) (vac : Vacancy) (flag : String)
    (h : py_lower flag = "y" ∨ py_lower flag = "да" ∨ py_lower flag = "yes") :
    delete_vacancy s vac flag = (true, { vacancies := [], file := .present "" }) ∧
    FileState.present "" ≠ FileState.present (save_content []) ∧
    init_saver (.present "") = .error .jsonDecodeError := by
  refine ⟨?_, by decide, rfl⟩
  unfold delete_vacancy
  rw [if_pos h]

/-- Witness for C10: deleting everything with the flag `"yes"`. -/
theorem c10_witness :
    delete_vacancy { vacancies := [vac_low], file := .present (save_content [vac_low]) }
        vac_low "yes" =
      (true, { vacancies := [], file := .present "" }) ∧
    FileState.present "" ≠ FileState.present (save_content []) ∧
    init_saver (.present "") = .error .jsonDecodeError :=
  c10_delete_all_truncates_to_invalid_json _ _ "yes" (Or.inr (Or.inr rfl))

/-- **C4.** `_add_vacancy` is idempotent under identical URL: a duplicate
URL returns `False` with the state (collection *and* file) untouched; a
fresh URL appends the record, rewrites the whole file and returns `True`;
adding the same record twice stores it exactly once and the second call
returns `False` without further mutation. -/
theorem c4_add_is_idempotent_by_url (s : Saver) (v : Vacancy) :
    (is_duplicate s v.url = true → add_vacancy s v = (false, s)) ∧
    (is_duplicate s v.url = false →
      add_vacancy s v = (true, save_data { s with vacancies := s.vacancies ++ [v] }) ∧
      ((add_vacancy s v).2.vacancies.filter (fun w => w.url = v.url)) = [v] ∧
      (add_vacancy (add_vacancy s v).2 v).1 = false ∧
      (add_vacancy (add_vacancy s v).2 v).2 = (add_vacancy s v).2) := by
  constructor
  · intro h
    simp [add_vacancy, h]
  · intro h
    have hmain : add_vacancy s v =
        (true, save_data { s with vacancies := s.vacancies ++ [v] }) := by
      simp [add_vacancy, h]
    have hnil : s.vacancies.filter (fun w => w.url = v.url) = [] := by
      rw [List.filter_eq_nil_iff]
      intro w hw
      have := (List.any_eq_false (p := fun w => w.url = v.url)
        (l := s.vacancies)).mp ?_ w hw
      · exact fun hc => by simp [hc] at this
      · simpa [is_duplicate] using h
    have hdup2 : is_duplicate (save_data { s with vacancies := s.vacancies ++ [v] }) v.url
        = true := by
      simp [is_duplicate, save_data]
    refine ⟨hmain, ?_, ?_, ?_⟩
    · rw [hmain]
      simp only [save_data, List.filter_append, hnil]
      simp
    · rw [hmain]
      simp [add_vacancy, hdup2]
    · rw [hmain]
      simp [add_vacancy, hdup2]

/-- Witness for C4: adding a record to the empty repository, twice. -/
theorem c4_witness :
    add_vacancy { vacancies := [], file := .absent } vac_low =
      (true, save_data { vacancies := [] ++ [vac_low], file := .absent }) ∧
    ((add_vacancy { vacancies := [], file := .absent } vac_low).2.vacancies.filter
      (fun w => w.url = vac_low.url)) = [vac_low] ∧
    (add_vacancy (add_vacancy { vacancies := [], file := .absent } vac_low).2 vac_low).1
      = false ∧
    (add_vacancy (add_vacancy { vacancies := [], file := .absent } vac_low).2 vac_low).2
      = (add_vacancy { vacancies := [], file := .absent } vac_low).2 :=
  (c4_add_is_idempotent_by_url { vacancies := [], file := .absent } vac_low).2 rfl

/-- **C2 (counterexample).** The claim says a record with a sentinel or
unparseable salary is valued `0.0` and included whenever `min ≤ 0`.  With
`min = -1 ≤ 0` and `max = 10`, the sentinel-salaried record — whose
`salaryValue` is indeed `0` — is *not* returned: `filter_by_salary_range`
parses the whole salary string with its own `float(...)` and drops every
record whose string does not parse. -/
theorem c2_counterexample_sentinel_excluded_despite_min_le_zero :
    filter_by_salary_range { vacancies := [vac_sent], file := .absent } (-1) 10 = [] ∧
    get_salary_value vac_sent.salary = 0 ∧
    ((-1 : ℚ) ≤ 0 ∧ (0 : ℚ) ≤ 10) := by
  refine ⟨by decide, ?_, by norm_num⟩
  have hcon : contains_sub salary_sentinel vac_sent.salary = true := rfl
  simp [get_salary_value, hcon]

/-- **C2 (amended).** `filter_by_salary_range(min, max)` returns exactly
the records whose *entire* salary string — after removing ASCII spaces,
narrow no-break spaces and commas — parses as a Python float `q` with
`min ≤ q ≤ max`.  Records with the sentinel salary, a salary range such as
«150000-200000 RUR», or any other string `float()` rejects are always
excluded, regardless of `min`; the `get_salary_value` extraction rule of §3
is not used here. -/
theorem c2_filter_by_whole_string_float :
    (∀ (s : Saver) (mn mx : ℚ) (v : Vacancy),
      v ∈ filter_by_salary_range s mn mx ↔
        v ∈ s.vacancies ∧ ∃ q, parse_salary v.salary = some q ∧ mn ≤ q ∧ q ≤ mx) ∧
    parse_salary salary_sentinel = none ∧
    parse_salary "150000-200000 RUR" = none := by
  refine ⟨?_, rfl, rfl⟩
  intro s mn mx v
  unfold filter_by_salary_range
  rw [List.mem_filter]
  constructor
  · rintro ⟨hm, hp⟩
    refine ⟨hm, ?_⟩
    cases hq : parse_salary v.salary with
    | none => rw [hq] at hp; simp at hp
    | some q =>
      rw [hq] at hp
      exact ⟨q, rfl, of_decide_eq_true hp⟩
  · rintro ⟨hm, q, hq, h1, h2⟩
    refine ⟨hm, ?_⟩
    rw [hq]
    exact decide_eq_true ⟨h1, h2⟩

/-- **C5 (counterexample).** The claim computes the value from the matched
numbers unless the salary *equals* the sentinel.  The code tests substring
*containment*: the salary «Зарплата не указана! 100» is not the sentinel
and matches the single number 100, so the claim demands `100.0`, but the
code returns `0.0`. -/
theorem c5_counterexample_containment_beats_single_number :
    get_salary_value "Зарплата не указана! 100" = 0 ∧
    salary_values "Зарплата не указана! 100" = [((100 : ℕ) : ℚ)] ∧
    "Зарплата не указана! 100" ≠ salary_sentinel ∧
    ((100 : ℕ) : ℚ) ≠ 0 := by
  refine ⟨?_, rfl, by decide, by norm_num⟩
  have hcon : contains_sub salary_sentinel "Зарплата не указана! 100" = true := rfl
  simp [get_salary_value, hcon]

/-- **C5 (amended).** The numeric salary value is `0.0` whenever the salary
*contains* the sentinel as a substring (even alongside extractable
numbers); otherwise it is the mean of the extracted decimal groups when two
of them match (thousand separators removed), the single number when one
matches, and `0.0` when none match.  Concretely, «150000-200000 RUR» yields
`175000.0`, and an empty salary is stored and displayed as the sentinel
string, valued `0.0`. -/
theorem c5_salary_value_extraction :
    (∀ sal : String, contains_sub salary_sentinel sal = true →
      get_salary_value sal = 0) ∧
    (∀ (sal : String) (a b : ℚ), contains_sub salary_sentinel sal = false →
      salary_values sal = [a, b] → get_salary_value sal = (a + b) / 2) ∧
    (∀ (sal : String) (a : ℚ), contains_sub salary_sentinel sal = false →
      salary_values sal = [a] → get_salary_value sal = a) ∧
    (∀ sal : String, contains_sub salary_sentinel sal = false →
      salary_values sal = [] → get_salary_value sal = 0) ∧
    get_salary_value "150000-200000 RUR" = 175000 ∧
    process_salary "" = salary_sentinel ∧
    get_salary_value salary_sentinel = 0 := by
  refine ⟨?_, ?_, ?_, ?_, ?_, rfl, ?_⟩
  · intro sal h
    simp [get_salary_value, h]
  · intro sal a b hc hv
    simp only [get_salary_value, hc, Bool.false_eq_true, if_false, hv]
    norm_num
  · intro sal a hc hv
    simp [get_salary_value, hc, hv]
  · intro sal hc hv
    simp [get_salary_value, hc, hv]
  · have hcon : contains_sub salary_sentinel "150000-200000 RUR" = false := rfl
    have h : salary_values "150000-200000 RUR" =
        [((150000 : ℕ) : ℚ), ((200000 : ℕ) : ℚ)] := rfl
    simp only [get_salary_value, hcon, Bool.false_eq_true, if_false, h]
    norm_num
  · have hcon : contains_sub salary_sentinel salary_sentinel = true := rfl
    simp [get_salary_value, hcon]

/-- Witness for C5: the two-number case at «150000-200000 RUR». -/
theorem c5_witness :
    contains_sub salary_sentinel "150000-200000 RUR" = false ∧
    salary_values "150000-200000 RUR" = [((150000 : ℕ) : ℚ), ((200000 : ℕ) : ℚ)] ∧
    get_salary_value "150000-200000 RUR" =
      (((150000 : ℕ) : ℚ) + ((200000 : ℕ) : ℚ)) / 2 :=
  ⟨rfl, rfl, c5_salary_value_extraction.2.1 _ _ _ rfl rfl⟩

/-- **C8 (counterexample).** The claim says construction raises for every
string lacking a scheme or a *host*.  The code only checks the *netloc*
(the authority): `"https://:80"` has a scheme and the non-empty netloc
`":80"` whose host part is empty, and constructing a record with it
*succeeds*. -/
theorem c8_counterexample_hostless_netloc_accepted :
    (vacancy_make "T" "https://:80" "s" "d" "e" "p").isOk = true ∧
    url_scheme "https://:80" ≠ [] ∧
    url_netloc "https://:80" = [':', '8', '0'] ∧
    url_host (url_netloc "https://:80") = [] := by
  refine ⟨by decide, by decide, by decide, by decide⟩

/-- The remainder `split_scheme` returns is a sublist of its input. -/
theorem split_scheme_snd_sublist (cs : List Char) :
    (split_scheme cs).2.Sublist cs := by
  unfold split_scheme
  split
  · exact List.Sublist.refl cs
  · dsimp only
    split
    · exact List.Sublist.refl cs
    · split
      · exact List.drop_sublist _ cs
      · exact List.Sublist.refl cs

/-- The netloc consists of characters of the parsed remainder. -/
theorem split_netloc_sublist (cs : List Char) :
    (split_netloc cs).Sublist cs := by
  unfold split_netloc
  split
  · exact ((List.takeWhile_sublist _).cons _).cons _
  · exact List.nil_sublist _

/-- **C8 (amended).** For a URL whose stripped text contains no square
brackets (the IPv6 form, which urllib validates further), constructing a
`Vacancy` succeeds exactly when `urlparse` finds a non-empty scheme *and* a
non-empty netloc (authority); a URL lacking either — including the empty
and blank strings — raises `ValueError` at construction time.  The
authority need not contain a host: a nonempty netloc of only
userinfo/port, such as in `"https://:80"`, is accepted. -/
theorem c8_construction_validates_scheme_and_netloc
    (t u sal d e p : String)
    (hb : (py_strip u).data.all (fun c => c ≠ '[' ∧ c ≠ ']') = true) :
    (∃ v, vacancy_make t u sal d e p = .ok v) ↔
      (url_scheme (py_strip u) ≠ [] ∧ url_netloc (py_strip u) ≠ []) := by
  have hsub : (url_netloc (py_strip u)).Sublist (py_strip u).data := by
    unfold url_netloc
    exact ((split_netloc_sublist _).trans (split_scheme_snd_sublist _)).trans
      (List.filter_sublist _)
  have hnb : netloc_bracket_error (url_netloc (py_strip u)) = false := by
    have h1 : (url_netloc (py_strip u)).contains '[' = false := by
      rw [List.contains_eq_any_beq, List.any_eq_false]
      intro c hc
      have h3 := (List.all_eq_true.mp hb) c (hsub.mem hc)
      simp only [decide_eq_true_eq] at h3
      simp only [beq_iff_eq]
      exact fun hh => h3.1 hh.symm
    have h2 : (url_netloc (py_strip u)).contains ']' = false := by
      rw [List.contains_eq_any_beq, List.any_eq_false]
      intro c hc
      have h3 := (List.all_eq_true.mp hb) c (hsub.mem hc)
      simp only [decide_eq_true_eq] at h3
      simp only [beq_iff_eq]
      exact fun hh => h3.2 hh.symm
    unfold netloc_bracket_error
    rw [h1, h2]
    rfl
  have hvalid : is_valid_url (py_strip u) =
      (!(url_scheme (py_strip u)).isEmpty && !(url_netloc (py_strip u)).isEmpty) := by
    simp [is_valid_url, hnb]
  constructor
  · rintro ⟨v, hv⟩
    unfold vacancy_make at hv
    by_cases h0 : py_strip u = ""
    · rw [if_pos h0] at hv; cases hv
    · rw [if_neg h0] at hv
      cases hvv : is_valid_url (py_strip u) with
      | false =>
        rw [if_pos (by simp [hvv])] at hv
        cases hv
      | true =>
        rw [hvalid, Bool.and_eq_true] at hvv
        obtain ⟨ha, hbn⟩ := hvv
        simp only [Bool.not_eq_true'] at ha hbn
        constructor
        · intro hc
          rw [hc] at ha
          simp at ha
        · intro hc
          rw [hc] at hbn
          simp at hbn
  · rintro ⟨hs, hn⟩
    have h0 : py_strip u ≠ "" := by
      intro hc
      apply hs
      rw [url_scheme, url_filtered, hc]
      rfl
    have h1 : is_valid_url (py_strip u) = true := by
      rw [hvalid]
      simp only [Bool.and_eq_true, Bool.not_eq_true']
      constructor
      · cases hsc : (url_scheme (py_strip u)).isEmpty
        · rfl
        · exact absurd (List.isEmpty_iff.mp hsc) hs
      · cases hnc : (url_netloc (py_strip u)).isEmpty
        · rfl
        · exact absurd (List.isEmpty_iff.mp hnc) hn
    refine ⟨{ title := py_strip t, url := py_strip u, salary := process_salary sal,
              description := if py_strip d = "" then description_sentinel else py_strip d,
              employer := if py_strip e = "" then employer_sentinel else py_strip e,
              published_at := py_strip p }, ?_⟩
    unfold vacancy_make
    rw [if_neg h0, if_neg (by simp [h1])]

/-- Witness for C8 at `"https://example.com"`. -/
theorem c8_witness :
    ((py_strip "https://example.com").data.all
      (fun c => c ≠ '[' ∧ c ≠ ']') = true) ∧
    ((∃ v, vacancy_make "T" "https://example.com" "s" "d" "e" "p" = .ok v) ↔
      (url_scheme (py_strip "https://example.com") ≠ [] ∧
       url_netloc (py_strip "https://example.com") ≠ [])) :=
  ⟨by decide,
   c8_construction_validates_scheme_and_netloc "T" "https://example.com" "s" "d" "e" "p"
     (by decide)⟩

/-- The pagination loop computes exactly the spec-side accumulation when
every reported `pages` member is numeric. -/
theorem get_requests_loop_eq_spec (provider : Nat → Option (List (String × Json)))
    (perPage : ℤ) (hw : pages_well_typed provider) :
    ∀ (fuel : Nat) (page : Nat) (acc : List Json),
      get_requests_loop provider perPage page acc fuel =
        .ok (spec_search_loop provider perPage page acc fuel) := by
  intro fuel
  induction fuel with
  | zero => intro page acc; rfl
  | succ f ih =>
    intro page acc
    unfold get_requests_loop spec_search_loop
    cases hp : provider page with
    | none => rfl
    | some d =>
      cases hde : d.isEmpty with
      | true => simp only [hde, if_true]
      | false =>
        simp only [hde, Bool.false_eq_true, if_false]
        cases hit : (parse_items d).isEmpty with
        | true => simp only [hit, if_true]
        | false =>
          simp only [hit, Bool.false_eq_true, if_false]
          cases hj : dict_get d "pages" with
          | none =>
            have hsp : spec_pages d = 0 := by simp [spec_pages, hj]
            rw [hsp]
            simp only [Option.getD_none]
            split_ifs with h1 h2 h3 <;>
              first
                | rfl
                | exact ih (page + 1) (acc ++ parse_items d)
                | tauto
          | some j =>
            rcases hw page d j hp hj with ⟨n, rfl⟩ | ⟨b, rfl⟩
            · have hsp : spec_pages d = n := by simp [spec_pages, hj]
              rw [hsp]
              simp only [Option.getD_some]
              split_ifs with h1 h2 h3 <;>
                first
                  | rfl
                  | exact ih (page + 1) (acc ++ parse_items d)
                  | tauto
            · have hsp : spec_pages d = (if b then 1 else 0) := by simp [spec_pages, hj]
              cases b with
              | false =>
                rw [hsp]
                simp only [Option.getD_some, Bool.false_eq_true, if_false]
                split_ifs with h1 h2 h3 <;>
                  first
                    | rfl
                    | exact ih (page + 1) (acc ++ parse_items d)
                    | tauto
              | true =>
                rw [hsp]
                simp only [Option.getD_some, if_true]
                split_ifs with h1 h2 h3 <;>
                  first
                    | rfl
                    | exact ih (page + 1) (acc ++ parse_items d)
                    | tauto

/-- **C3.** For every provider (with numerically-typed page counts) and
every nonnegative `pageSize`, `get_requests` requests successive pages from
page 0 and stops exactly per the spec's conditions — no/unparseable
response, a page with zero items, accumulated count reaching `pageSize`,
or the reported total-pages count exhausted — and it returns at most
`pageSize` records, truncating overshoot from the last fetched page. -/
theorem c3_get_requests_paginates_and_truncates
    (provider : Nat → Option (List (String × Json))) (perPage : ℤ)
    (hw : pages_well_typed provider) (h0 : 0 ≤ perPage) :
    get_requests provider perPage = .ok (spec_search provider perPage) ∧
    (spec_search provider perPage).length ≤ perPage.toNat := by
  constructor
  · unfold get_requests spec_search
    rw [get_requests_loop_eq_spec provider perPage hw]
    rfl
  · unfold spec_search py_slice_to
    rw [if_pos h0]
    rw [List.length_take]
    exact min_le_left _ _

/-- Witness for C3: the mocked provider serving two pages of one item each
with `pages = 2`; `pageSize = 2` returns exactly the two items. -/
theorem c3_witness :
    pages_well_typed two_page_provider ∧ ((0 : ℤ) ≤ 2) ∧
    (get_requests two_page_provider 2 = .ok (spec_search two_page_provider 2) ∧
      (spec_search two_page_provider 2).length ≤ (2 : ℤ).toNat) ∧
    get_requests two_page_provider 2 = .ok [page_item 0, page_item 1] := by
  have hw : pages_well_typed two_page_provider := by
    intro p d j hp hj
    by_cases h : p < 2
    · unfold two_page_provider at hp
      rw [if_pos h] at hp
      injection hp with hp
      rw [← hp] at hj
      have hd : dict_get [("items", Json.arr [page_item p]), ("pages", Json.num 2)]
          "pages" = some (Json.num 2) := rfl
      rw [hd] at hj
      injection hj with hj
      exact Or.inl ⟨2, hj.symm⟩
    · simp [two_page_provider, h] at hp
  exact ⟨hw, by norm_num,
    c3_get_requests_paginates_and_truncates two_page_provider 2 hw (by norm_num), rfl⟩


/-- `skip_ws` leaves a list alone when its head is not whitespace. -/
theorem skip_ws_cons {c : Char} (h : json_ws c = false) (cs : List Char) :
    skip_ws (c :: cs) = c :: cs := by
  simp [skip_ws, List.dropWhile_cons, h]

/-- Parsing a serialised hexadecimal digit recovers its value. -/
theorem parse_hex_hex_digit : ∀ n : Nat, n < 16 → parse_hex (hex_digit n) = some n := by
  decide

/-- Escaping and then parsing a string body is the identity (the core of
the `json.dump`/`json.load` round trip on the program's string fields). -/
theorem parse_string_body_escape (cs rest : List Char) :
    parse_string_body (escape_chars cs ++ '"' :: rest) = some (cs, rest) := by
  induction cs with
  | nil => rfl
  | cons c cs ih =>
    show parse_string_body ((escape_char c ++ escape_chars cs) ++ '"' :: rest) = _
    rw [List.append_assoc]
    by_cases h1 : c = '"'
    · subst h1
      simp [escape_char, parse_string_body, unescape_short, ih]
    · by_cases h2 : c = '\\'
      · subst h2
        simp [escape_char, parse_string_body, unescape_short, ih]
      · by_cases h3 : c = '\n'
        · subst h3
          simp [escape_char, parse_string_body, unescape_short, ih]
        · by_cases h4 : c = '\t'
          · subst h4
            simp [escape_char, parse_string_body, unescape_short, ih]
          · by_cases h5 : c = '\x0d'
            · subst h5
              simp [escape_char, parse_string_body, unescape_short, ih]
            · by_cases h6 : c = '\x08'
              · subst h6
                simp [escape_char, parse_string_body, unescape_short, ih]
              · by_cases h7 : c = '\x0c'
                · subst h7
                  simp [escape_char, parse_string_body, unescape_short, ih]
                · by_cases h8 : c.toNat < 32
                  · have e1 : escape_char c =
                        ['\\', 'u', '0', '0', hex_digit (c.toNat / 16),
                         hex_digit (c.toNat % 16)] := by
                      simp [escape_char, h1, h2, h3, h4, h5, h6, h7, h8]
                    rw [e1]
                    have hd0 : parse_hex '0' = some 0 := rfl
                    have hd1 : parse_hex (hex_digit (c.toNat / 16)) = some (c.toNat / 16) :=
                      parse_hex_hex_digit _ (by omega)
                    have hd2 : parse_hex (hex_digit (c.toNat % 16)) = some (c.toNat % 16) :=
                      parse_hex_hex_digit _ (by omega)
                    simp only [List.cons_append, List.nil_append, parse_string_body,
                      hd0, hd1, hd2, ih, Option.map_some, reduceIte]
                    have hval : (((0 * 16 + 0) * 16 + c.toNat / 16) * 16 + c.toNat % 16)
                        = c.toNat := by omega
                    rw [hval, Char.ofNat_toNat]
                    simp [ih]
                  · have e1 : escape_char c = [c] := by
                      simp [escape_char, h1, h2, h3, h4, h5, h6, h7, h8]
                    rw [e1]
                    simp [parse_string_body, h1, h2, ih]

/-- A string token parses back to the string it serialises, under any
positive fuel. -/
theorem parse_value_dump_string (F : Nat) (hF : F ≠ 0) (s : String) (rest : List Char) :
    parse_value F (dump_string s ++ rest) = some (.str s, rest) := by
  cases F with
  | zero => exact absurd rfl hF
  | succ h =>
    show parse_value (h + 1) (('"' :: (escape_chars s.data ++ ['"'])) ++ rest) = _
    rw [List.cons_append, List.append_assoc]
    simp only [List.cons_append, List.nil_append, parse_value, parse_string_body_escape,
      Option.map_some]
    rfl

/-- `dump_string` in explicit cons form. -/
theorem dump_string_cons (s : String) (X : List Char) :
    dump_string s ++ X = '"' :: (escape_chars s.data ++ '"' :: X) := by
  simp [dump_string]

/-- `skip_ws` leaves a serialised string token alone. -/
theorem skip_ws_dump_string (s : String) (X : List Char) :
    skip_ws (dump_string s ++ X) = dump_string s ++ X := by
  rw [dump_string_cons]
  exact skip_ws_cons (by decide) _

/-- A serialised field list starts with a quote. -/
theorem dump_fields_head (kv : String × String) (fl : List (String × String))
    (X : List Char) :
    ∃ t, dump_fields (kv :: fl) ++ X = '"' :: t := by
  obtain ⟨k, v⟩ := kv
  cases fl with
  | nil =>
    refine ⟨escape_chars k.data ++ '"' :: (':' :: dump_string v ++ X), ?_⟩
    simp [dump_fields, dump_field, dump_string]
  | cons kv2 fl2 =>
    refine ⟨escape_chars k.data ++ '"' ::
      (':' :: dump_string v ++ ',' :: dump_fields (kv2 :: fl2) ++ X), ?_⟩
    simp [dump_fields, dump_field, dump_string]

/-- `skip_ws` leaves a serialised field list alone. -/
theorem skip_ws_dump_fields (kv : String × String) (fl : List (String × String))
    (X : List Char) :
    skip_ws (dump_fields (kv :: fl) ++ X) = dump_fields (kv :: fl) ++ X := by
  obtain ⟨t, ht⟩ := dump_fields_head kv fl X
  rw [ht]
  exact skip_ws_cons (by decide) _

/-- A serialised nonempty field list parses back to its fields, given fuel
beyond the field count. -/
theorem parse_fields_dump_fields :
    ∀ (fl : List (String × String)) (F : Nat) (rest : List Char),
      fl ≠ [] → fl.length + 1 ≤ F →
      parse_fields F (dump_fields fl ++ '}' :: rest) =
        some (fl.map (fun kv => (kv.1, Json.str kv.2)), rest) := by
  intro fl
  induction fl with
  | nil => intro F rest hne _; exact absurd rfl hne
  | cons kv fl ih =>
    intro F rest _ hF
    obtain ⟨k, v⟩ := kv
    cases F with
    | zero => omega
    | succ F' =>
      have hk : (⟨k.data⟩ : String) = k := rfl
      have hF0 : F' ≠ 0 := by simp only [List.length_cons] at hF; omega
      cases fl with
      | nil =>
        rw [show dump_fields [(k, v)] = dump_string k ++ ':' :: dump_string v from rfl]
        rw [List.append_assoc, List.cons_append, dump_string_cons]
        simp [parse_fields, parse_string_body_escape, skip_ws_cons, json_ws,
          skip_ws_dump_string, parse_value_dump_string F' hF0, hk]
      | cons kv2 fl2 =>
        rw [show dump_fields ((k, v) :: kv2 :: fl2) =
          (dump_string k ++ ':' :: dump_string v) ++ ',' :: dump_fields (kv2 :: fl2)
          from rfl]
        rw [List.append_assoc, List.cons_append, List.append_assoc, List.cons_append,
          dump_string_cons]
        simp [parse_fields, parse_string_body_escape, skip_ws_cons, json_ws,
          skip_ws_dump_string, skip_ws_dump_fields,
          parse_value_dump_string F' hF0,
          ih F' rest (by simp) (by simp only [List.length_cons] at hF ⊢; omega), hk]

/-- A serialised `to_dict` object parses back to its document node, with
fuel at least 8 (one for the object, one per field, one for the last
value). -/
theorem parse_value_dump_vac (F : Nat) (hF : 8 ≤ F) (v : Vacancy) (rest : List Char) :
    parse_value F (dump_vac v ++ rest) = some (vac_json v, rest) := by
  cases F with
  | zero => omega
  | succ F' =>
    rw [show dump_vac v ++ rest = '{' :: (dump_fields (to_dict v) ++ '}' :: rest) by
      simp [dump_vac]]
    rw [show to_dict v = ("title", v.title) ::
      [("url", v.url), ("salary", v.salary), ("description", v.description),
       ("employer", v.employer), ("published_at", v.published_at)] from rfl]
    obtain ⟨t, ht⟩ := dump_fields_head ("title", v.title)
      [("url", v.url), ("salary", v.salary), ("description", v.description),
       ("employer", v.employer), ("published_at", v.published_at)] ('}' :: rest)
    have hfl := parse_fields_dump_fields (("title", v.title) ::
      [("url", v.url), ("salary", v.salary), ("description", v.description),
       ("employer", v.employer), ("published_at", v.published_at)]) F' rest (by simp)
      (by simp only [List.length_cons, List.length_nil]; omega)
    simp only [parse_value]
    rw [skip_ws_dump_fields]
    rw [ht]
    show Option.map (fun p => (Json.obj p.1, p.2)) (parse_fields F' ('"' :: t))
      = some (vac_json v, rest)
    rw [← ht, hfl]
    simp [vac_json]

/-- A serialised record list starts with a brace. -/
theorem dump_items_head (v : Vacancy) (vs : List Vacancy) (X : List Char) :
    ∃ t, dump_items (v :: vs) ++ X = '{' :: t := by
  cases vs with
  | nil => exact ⟨dump_fields (to_dict v) ++ '}' :: X, by simp [dump_items, dump_vac]⟩
  | cons w ws =>
    exact ⟨dump_fields (to_dict v) ++ '}' :: ',' :: dump_items (w :: ws) ++ X,
      by simp [dump_items, dump_vac]⟩

/-- `skip_ws` leaves a serialised record list alone. -/
theorem skip_ws_dump_items (v : Vacancy) (vs : List Vacancy) (X : List Char) :
    skip_ws (dump_items (v :: vs) ++ X) = dump_items (v :: vs) ++ X := by
  obtain ⟨t, ht⟩ := dump_items_head v vs X
  rw [ht]
  exact skip_ws_cons (by decide) _

/-- A serialised nonempty record list parses back to its document nodes. -/
theorem parse_elems_dump_items :
    ∀ (vs : List Vacancy) (F : Nat) (rest : List Char),
      vs ≠ [] → vs.length + 9 ≤ F →
      parse_elems F (dump_items vs ++ ']' :: rest) = some (vs.map vac_json, rest) := by
  intro vs
  induction vs with
  | nil => intro F rest hne _; exact absurd rfl hne
  | cons v vs ih =>
    intro F rest _ hF
    have hF8 : 8 ≤ F - 1 := by simp only [List.length_cons] at hF; omega
    cases F with
    | zero => omega
    | succ F' =>
      cases vs with
      | nil =>
        rw [show dump_items [v] = dump_vac v from rfl]
        simp [parse_elems, parse_value_dump_vac F' (by omega), skip_ws_cons, json_ws]
      | cons w ws =>
        rw [show dump_items (v :: w :: ws) = dump_vac v ++ ',' :: dump_items (w :: ws)
          from rfl]
        rw [List.append_assoc, List.cons_append]
        simp [parse_elems, parse_value_dump_vac F' (by omega), skip_ws_cons, json_ws,
          skip_ws_dump_items,
          ih F' rest (by simp) (by simp only [List.length_cons] at hF ⊢; omega)]

/-- A serialised record is at least 9 characters long. -/
theorem dump_vac_length (v : Vacancy) : 9 ≤ (dump_vac v).length := by
  simp only [dump_vac, dump_fields, to_dict, dump_field, dump_string,
    List.length_append, List.length_cons, List.cons_append, List.length_nil]
  omega

/-- A serialised nonempty record list is longer than its count plus 8. -/
theorem dump_items_length :
    ∀ (v : Vacancy) (vs : List Vacancy),
      (v :: vs).length + 8 ≤ (dump_items (v :: vs)).length := by
  intro v vs
  induction vs generalizing v with
  | nil => simpa [dump_items] using dump_vac_length v
  | cons w ws ih =>
    have h1 := dump_vac_length v
    have h2 := ih w
    rw [show dump_items (v :: w :: ws) = dump_vac v ++ ',' :: dump_items (w :: ws)
      from rfl]
    simp only [List.length_append, List.length_cons] at h2 ⊢
    omega

/-- The document `_save_data` writes parses back to the array of stored
records, via `json.load`. -/
theorem json_parse_save_content (vs : List Vacancy) :
    json_parse (save_content vs) = some (.arr (vs.map vac_json)) := by
  cases vs with
  | nil => rfl
  | cons v vs =>
    have hdata : (save_content (v :: vs)).data
        = '[' :: (dump_items (v :: vs) ++ ']' :: []) := by
      simp [save_content]
    have hlen := dump_items_length v vs
    obtain ⟨t, ht⟩ := dump_items_head v vs (']' :: [])
    have hval : ∀ F, (v :: vs).length + 9 ≤ F →
        parse_value (F + 1) ('[' :: (dump_items (v :: vs) ++ ']' :: [])) =
          some (.arr ((v :: vs).map vac_json), []) := by
      intro F hbound
      simp only [parse_value]
      rw [show skip_ws (dump_items (v :: vs) ++ ']' :: [])
        = dump_items (v :: vs) ++ ']' :: [] from skip_ws_dump_items v vs (']' :: [])]
      rw [ht]
      show Option.map (fun p => (Json.arr p.1, p.2)) (parse_elems F ('{' :: t))
        = some (.arr ((v :: vs).map vac_json), [])
      rw [← ht]
      rw [parse_elems_dump_items (v :: vs) F [] (by simp) hbound]
      rfl
    unfold json_parse
    rw [hdata]
    rw [skip_ws_cons (by decide)]
    rw [show ('[' :: (dump_items (v :: vs) ++ ']' :: [])).length
      = (dump_items (v :: vs) ++ ']' :: []).length + 1 from rfl]
    rw [hval ((dump_items (v :: vs) ++ ']' :: []).length + 1)
      (by simp only [List.length_cons, List.length_append] at hlen ⊢; omega)]
    rfl

/-- Decoding the document nodes of constructor-canonical records recovers
exactly those records. -/
theorem decode_vac_list_map :
    ∀ (vs : List Vacancy), (∀ v ∈ vs, canonical v) →
      decode_vac_list (vs.map vac_json) = .ok vs := by
  intro vs
  induction vs with
  | nil => intro _; rfl
  | cons v vs ih =>
    intro h
    have hv : canonical v := h v (by simp)
    have hitem : decode_vac_item (vac_json v) = .ok v := by
      show vacancy_make v.title v.url v.salary v.description v.employer v.published_at
        = .ok v
      exact hv
    have hrest := ih (fun w hw => h w (by simp [hw]))
    simp only [List.map_cons, decode_vac_list, hitem, hrest]

/-- **C6.** Round trip: writing the collection to the backing file
(`_save_data`) and constructing a fresh repository from that file
(`__init__`/`_load_data`) yields exactly the same ordered list of records —
same URLs and same values of every field — for every repository state
(whose records, as always, came out of the `Vacancy` constructor). -/
theorem c6_save_load_round_trip (s : Saver) (h : ∀ v ∈ s.vacancies, canonical v) :
    init_saver (save_data s).file =
      .ok { vacancies := s.vacancies, file := .present (save_content s.vacancies) } := by
  have hl : load_data (.present (save_content s.vacancies))
      = decode_vac_list (s.vacancies.map vac_json) := by
    simp only [load_data, json_parse_save_content s.vacancies]
  show (load_data (.present (save_content s.vacancies))).map _ = _
  rw [hl, decode_vac_list_map s.vacancies h]
  rfl

set_option maxRecDepth 10000 in
/-- Witness for C6: a two-record repository survives the save/load round
trip unchanged. -/
theorem c6_witness :
    (∀ v ∈ [vac_low, vac_high], canonical v) ∧
    init_saver (save_data { vacancies := [vac_low, vac_high], file := .absent }).file =
      .ok { vacancies := [vac_low, vac_high],
            file := .present (save_content [vac_low, vac_high]) } := by
  have hc : ∀ v ∈ [vac_low, vac_high], canonical v := by
    intro v hv
    simp only [List.mem_cons, List.not_mem_nil, or_false] at hv
    rcases hv with rfl | rfl
    · rfl
    · rfl
  exact ⟨hc, c6_save_load_round_trip _ hc⟩

/-- Alignment of the field scan: under well-formedness, looking for the
first `areas` entry and searching its subtree yields exactly the spec-side
first pre-order match among the node's descendants (where `"0"` encodes
«no match», soundly, because well-formed candidates are never `"0"`). -/
theorem scan_areas_align (t' : String) (B : Nat)
    (H : ∀ l', json_size_list l' < B → wf_nodes l' = true →
      search_list t' l' = .ok (first_match t' (preorder_fields l')) ∧
      ∀ f ∈ preorder_fields l', node_candidate f ≠ "0") :
    ∀ fields : List (String × Json), json_size_fields fields < B →
      wf_areas fields = true →
      scan_areas t' fields =
        .ok (match (preorder_children fields).find? (node_matches t') with
             | some f => some (node_candidate f)
             | none => none) ∧
      (∀ f ∈ preorder_children fields, node_candidate f ≠ "0") := by
  intro fields
  induction fields with
  | nil => intro _ _; exact ⟨rfl, by simp [preorder_children]⟩
  | cons kv rest ihf =>
    intro hsz hwf
    obtain ⟨k, v⟩ := kv
    by_cases hk : k = "areas"
    · subst hk
      cases v with
      | arr l' =>
        have hwf' : wf_nodes l' = true := by simpa [wf_areas] using hwf
        have hsz' : json_size_list l' < B := by
          simp only [json_size_fields, json_size] at hsz
          omega
        obtain ⟨hs, hc⟩ := H l' hsz' hwf'
        constructor
        · simp only [scan_areas, if_pos rfl, iter_areas, hs]
          cases hf : (preorder_fields l').find? (node_matches t') with
          | none =>
            simp [first_match, hf, preorder_children, preorder_sub]
          | some f =>
            have hne : node_candidate f ≠ "0" := hc f (List.mem_of_find?_eq_some hf)
            simp [first_match, hf, preorder_children, preorder_sub, hne]
        · intro f hf
          have hmem : f ∈ preorder_fields l' := by
            simpa [preorder_children, preorder_sub] using hf
          exact hc f hmem
      | null => simp [wf_areas] at hwf
      | bool b => simp [wf_areas] at hwf
      | num m => simp [wf_areas] at hwf
      | str s => simp [wf_areas] at hwf
      | obj fl => simp [wf_areas] at hwf
    · have hwf' : wf_areas rest = true := by
        unfold wf_areas at hwf
        rwa [if_neg hk] at hwf
      have hsz' : json_size_fields rest < B := by
        simp only [json_size_fields] at hsz
        omega
      obtain ⟨hs, hc⟩ := ihf hsz' hwf'
      have hpc : preorder_children ((k, v) :: rest) = preorder_children rest := by
        unfold preorder_children
        rw [if_neg hk]
        exact preorder_children.eq_def rest
      constructor
      · show scan_areas t' ((k, v) :: rest) = _
        unfold scan_areas
        rw [if_neg hk, hpc]
        exact hs
      · intro f hf
        rw [hpc] at hf
        exact hc f hf

/-- The DFS short-circuit search equals the spec-side «first pre-order
match» on well-formed trees (strong induction on the tree size). -/
theorem search_list_spec (t' : String) :
    ∀ (n : Nat) (l : List Json), json_size_list l ≤ n → wf_nodes l = true →
      search_list t' l = .ok (first_match t' (preorder_fields l)) ∧
      (∀ f ∈ preorder_fields l, node_candidate f ≠ "0") := by
  intro n
  induction n using Nat.strong_induction_on with
  | h n ih =>
    intro l hsz hwf
    cases l with
    | nil => exact ⟨rfl, by simp [preorder_fields]⟩
    | cons a rest =>
      have Hrec : ∀ l', json_size_list l' < n → wf_nodes l' = true →
          search_list t' l' = .ok (first_match t' (preorder_fields l')) ∧
          ∀ f ∈ preorder_fields l', node_candidate f ≠ "0" :=
        fun l' hlt hwf' => ih _ hlt l' (le_refl _) hwf'
      cases a with
      | obj fields =>
        have hsz0 : json_size_list (Json.obj fields :: rest)
            = 1 + (1 + json_size_fields fields) + json_size_list rest := by
          simp [json_size_list, json_size]
        have hwf0 := hwf
        simp only [wf_nodes, Bool.and_eq_true] at hwf0
        obtain ⟨⟨⟨hname, hcand⟩, hareas⟩, hwrest⟩ := hwf0
        have hrest := Hrec rest (by rw [hsz0] at hsz; omega) hwrest
        have hscan := scan_areas_align t' n Hrec fields (by rw [hsz0] at hsz; omega) hareas
        have hpre : preorder_fields (Json.obj fields :: rest)
            = fields :: (preorder_children fields ++ preorder_fields rest) := by
          simp [preorder_fields]
        have hcand' : node_candidate fields ≠ "0" := by
          simpa using hcand
        -- the node's name is a string (or missing, read as "")
        have hs : ∃ s : String, (dict_get fields "name").getD (.str "") = .str s := by
          cases hn : dict_get fields "name" with
          | none => exact ⟨"", rfl⟩
          | some j =>
            cases j with
            | str s => exact ⟨s, rfl⟩
            | null => rw [hn] at hname; simp at hname
            | bool b => rw [hn] at hname; simp at hname
            | num m => rw [hn] at hname; simp at hname
            | arr l2 => rw [hn] at hname; simp at hname
            | obj f2 => rw [hn] at hname; simp at hname
        obtain ⟨s, hsname⟩ := hs
        have hmatch : node_matches t' fields = decide (py_lower (py_strip s) = t') := by
          simp [node_matches, hsname]
        by_cases hm : py_lower (py_strip s) = t'
        · -- direct hit on this node
          have hfind : (fields :: (preorder_children fields ++ preorder_fields rest)).find?
              (node_matches t') = some fields :=
            List.find?_cons_of_pos _ (by rw [hmatch]; exact decide_eq_true hm)
          constructor
          · simp only [search_list, search_node, hsname, if_pos hm]
            simp [first_match, hpre, hfind, node_candidate]
          · intro f hf
            rw [hpre] at hf
            rcases List.mem_cons.mp hf with rfl | hf2
            · exact hcand'
            · rcases List.mem_append.mp hf2 with hcl | hrt
              · exact hscan.2 f hcl
              · exact hrest.2 f hrt
        · -- no hit here: the children decide, then the siblings
          have hfcons : (fields :: (preorder_children fields ++ preorder_fields rest)).find?
              (node_matches t')
              = (preorder_children fields ++ preorder_fields rest).find?
                  (node_matches t') :=
            List.find?_cons_of_neg _ (by rw [hmatch]; simpa using hm)
          constructor
          · simp only [search_list, search_node, hsname, if_neg hm]
            rw [hscan.1]
            cases hf : (preorder_children fields).find? (node_matches t') with
            | some f =>
              simp only [first_match, hpre, hfcons, List.find?_append, hf]
              rfl
            | none =>
              simp only [hrest.1, first_match, hpre, hfcons, List.find?_append, hf]
              rfl
          · intro f hf
            rw [hpre] at hf
            rcases List.mem_cons.mp hf with rfl | hf2
            · exact hcand'
            · rcases List.mem_append.mp hf2 with hcl | hrt
              · exact hscan.2 f hcl
              · exact hrest.2 f hrt
      | null => simp [wf_nodes] at hwf
      | bool b => simp [wf_nodes] at hwf
      | num m => simp [wf_nodes] at hwf
      | str s2 => simp [wf_nodes] at hwf
      | arr l2 => simp [wf_nodes] at hwf

set_option maxRecDepth 10000 in
/-- **C7 (counterexample).** The claim says non-dict tree nodes are skipped
without failing.  On the list `[{"name": "Москва", "id": 1}, 42]` with an
unmatched target, the traversal reaches the integer node, calls `.get` on
it and raises `AttributeError` — the error propagates out of
`find_area_id` instead of the claimed `"0"`. -/
theorem c7_counterexample_non_dict_node_raises :
    find_area_id
        (.arr [.obj [("name", .str "Москва"), ("id", .num 1)], .num 42])
        "Тверь"
      = .error .attributeError := by
  rfl

/-- **C7 (amended).** On well-formed trees — every node a dict whose `name`
is a string, whose `id` renders to something other than `"0"` and whose
`areas` member is a list of such nodes — `find_area_id` performs exactly
the spec's pre-order depth-first search: current node before its children,
siblings in list order, case-insensitive exact match on the trimmed name,
returning the id of the first matching node as a string and `"0"` when no
node matches (non-list inputs, after dict wrapping, also give `"0"`).
A non-dict *node*, however, raises `AttributeError` rather than being
skipped, and a matching node whose id renders as `"0"` would be treated as
«not found» — hence the well-formedness hypothesis. -/
theorem c7_find_area_id_preorder_first_match (data : Json) (t : String)
    (hwf : wf_tree data = true) :
    find_area_id data t = .ok (find_area_spec data t) := by
  cases data with
  | obj fields =>
    have h := (search_list_spec (py_lower (py_strip t))
      (json_size_list [Json.obj fields]) [Json.obj fields] (le_refl _)
      (by simpa [wf_tree] using hwf)).1
    show search_list (py_lower (py_strip t)) [Json.obj fields] = _
    rw [h]
    rfl
  | arr l =>
    have h := (search_list_spec (py_lower (py_strip t))
      (json_size_list l) l (le_refl _) (by simpa [wf_tree] using hwf)).1
    show search_list (py_lower (py_strip t)) l = _
    rw [h]
    rfl
  | null => rfl
  | bool b => rfl
  | num m => rfl
  | str s => rfl

set_option maxRecDepth 10000 in
/-- Witness for C7: the sample area tree, with a nested hit and a miss. -/
theorem c7_witness :
    wf_tree area_tree = true ∧
    find_area_id area_tree "Ленинградская область"
      = .ok (find_area_spec area_tree "Ленинградская область") ∧
    find_area_id area_tree "Ленинградская область" = .ok "78" ∧
    find_area_id area_tree "Unknownsville"
      = .ok (find_area_spec area_tree "Unknownsville") ∧
    find_area_id area_tree "Unknownsville" = .ok "0" := by
  have hwf : wf_tree area_tree = true := by
    simp only [wf_tree, area_tree, wf_nodes, wf_areas, dict_get]
    decide
  refine ⟨hwf, c7_find_area_id_preorder_first_match area_tree _ hwf, ?_,
    c7_find_area_id_preorder_first_match area_tree _ hwf, ?_⟩ <;> rfl
